import Mathlib

/-!
Verification of `osmosis-discover-js` (`src/listInterfaces.cpp`).

The repository exposes a single native operation, `ListInterfaces`, which
queries the OS interface list via `getifaddrs`, filters the returned entries
to the IPv4 (`AF_INET`) family, renders the unicast and broadcast addresses
with `inet_ntop`, and returns `{name, address, broadcast}` records.

The embedding below models:
  * an `ifaddrs` entry as a record with a possibly-null `ifa_addr` pointer,
    a possibly-null `ifa_broadaddr` slot (the `ifa_ifu` union), the interface
    name and the (unused) `ifa_flags` word;
  * `inet_ntop(AF_INET, ...)` as dotted-decimal rendering of a 32-bit value
    (network byte order read as a big-endian natural number);
  * the body of `ListInterfaces` faithfully, including the control flow after
    `ThrowAsJavaScriptException`: node-addon-api's
    `ThrowAsJavaScriptException` only marks a JavaScript exception as pending
    and returns, so when `getifaddrs` fails the C++ function falls through
    into the loop over the *uninitialized* local pointer `interfaces` and
    later passes that pointer to `freeifaddrs`.  The indeterminate contents
    of the uninitialized variable are modelled as an explicit component
    (`uninitValue`) of the system state, and the free of the never-acquired
    pointer is recorded as `FreeTarget.indeterminate`.
  * dereferencing a null pointer (`ifa->ifa_addr->sa_family` or
    `((struct sockaddr_in*)ifa->ifa_broadaddr)->sin_addr` when the pointer is
    NULL) as undefined behaviour, represented by the loop returning `none`.
-/

/-- Linux value of the `AF_INET` address-family constant. -/
def AF_INET : Nat := 2

/-- A `struct sockaddr` as the code uses it: the `sa_family` tag, and the
32-bit `sin_addr` value obtained by casting the pointer to
`struct sockaddr_in` (read in network byte order as a big-endian natural). -/
structure SockAddr where
  sa_family : Nat
  sin_addr : Nat
deriving DecidableEq

/-- One entry of the `ifaddrs` linked list returned by `getifaddrs`.
`ifa_addr` and `ifa_broadaddr` are pointers in C and may be NULL, hence
`Option`.  `ifa_flags` is present in the struct but never read by the code. -/
structure Ifaddrs where
  ifa_name : String
  ifa_addr : Option SockAddr
  ifa_broadaddr : Option SockAddr
  ifa_flags : Nat
deriving DecidableEq

/-- The record the code builds per IPv4 entry: exactly the three fields set
by the three `obj.Set` calls (`name`, `address`, `broadcast`). -/
structure InterfaceRecord where
  name : String
  address : String
  broadcast : String
deriving DecidableEq

/-- Little-endian decimal digits of `n`, with explicit fuel so that the
definition is structurally recursive and kernel-evaluable. -/
def toDecAux : Nat → Nat → List Nat
  | 0, _ => []
  | fuel + 1, n => if n = 0 then [] else n % 10 :: toDecAux fuel (n / 10)

/-- Big-endian decimal digits of `n`, as `inet_ntop` prints each octet
(`0` prints as the single digit `0`). -/
def decDigits (n : Nat) : List Nat :=
  if n = 0 then [0] else (toDecAux n n).reverse

/-- The ASCII character of a decimal digit. -/
def digitChar (d : Nat) : Char := Char.ofNat (48 + d)

/-- Decimal rendering of `n` as characters. -/
def decChars (n : Nat) : List Char := (decDigits n).map digitChar

/-- `inet_ntop(AF_INET, a, ...)`: dotted-decimal text of the 32-bit value
`a`, octets taken most-significant first (network byte order in memory). -/
def inet_ntop4 (a : Nat) : List Char :=
  decChars (a / 16777216 % 256) ++ '.' ::
  decChars (a / 65536 % 256) ++ '.' ::
  decChars (a / 256 % 256) ++ '.' ::
  decChars (a % 256)

/-- String form of `inet_ntop4` (the contents of `ip_addr_buffer`). -/
def inet_ntopS (a : Nat) : String := ⟨inet_ntop4 a⟩

/-- Test for an ASCII decimal digit. -/
def isDigitCh (c : Char) : Bool := 48 ≤ c.toNat && c.toNat ≤ 57

/-- Split a character list into the groups separated by `'.'`. -/
def splitDots : List Char → List (List Char)
  | [] => [[]]
  | c :: cs =>
    if c = '.' then [] :: splitDots cs
    else
      match splitDots cs with
      | [] => [[c]]
      | g :: gs => (c :: g) :: gs

/-- Parse one decimal octet: non-empty, all digits, value at most 255. -/
def parseOctet (cs : List Char) : Option Nat :=
  if cs.isEmpty then none
  else if cs.all isDigitCh then
    let v := cs.foldl (fun a c => a * 10 + (c.toNat - 48)) 0
    if v ≤ 255 then some v else none
  else none

/-- Parse dotted-decimal IPv4 text back to its 32-bit value. -/
def inet_pton4 (cs : List Char) : Option Nat :=
  match splitDots cs with
  | [p0, p1, p2, p3] =>
    match parseOctet p0, parseOctet p1, parseOctet p2, parseOctet p3 with
    | some o0, some o1, some o2, some o3 =>
      some (o0 * 16777216 + o1 * 65536 + o2 * 256 + o3)
    | _, _, _, _ => none
  | _ => none

/-- String form of `inet_pton4`. -/
def inet_ptonS (s : String) : Option Nat := inet_pton4 s.data

/-- Whether the loop's family test accepts the entry:
`ifa->ifa_addr->sa_family == AF_INET` (meaningful only when `ifa_addr` is
non-null; the null case is handled separately as undefined behaviour). -/
def isIPv4 (e : Ifaddrs) : Bool :=
  match e.ifa_addr with
  | none => false
  | some sa => sa.sa_family = AF_INET

/-- The 32-bit unicast address the code reads from the entry (defaulting to
`0` when the pointer is null; only used under well-formedness). -/
def addrVal (e : Ifaddrs) : Nat :=
  match e.ifa_addr with
  | none => 0
  | some sa => sa.sin_addr

/-- The 32-bit value in the entry's broadcast-address slot (defaulting to
`0` when the pointer is null; only used under well-formedness). -/
def broadVal (e : Ifaddrs) : Nat :=
  match e.ifa_broadaddr with
  | none => 0
  | some ba => ba.sin_addr

/-- The record built for one accepted entry: the three `obj.Set` calls. -/
def mkRecord (e : Ifaddrs) : InterfaceRecord :=
  { name := e.ifa_name
    address := inet_ntopS (addrVal e)
    broadcast := inet_ntopS (broadVal e) }

/-- The `for` loop of `ListInterfaces` over the `ifaddrs` list.
Returns `none` when the iteration hits undefined behaviour: the family test
dereferences `ifa_addr` with no null check, and the broadcast conversion
dereferences `ifa_broadaddr` with no null check. -/
def loopEntries : List Ifaddrs → Option (List InterfaceRecord)
  | [] => some []
  | e :: rest =>
    match e.ifa_addr with
    | none => none
    | some sa =>
      if sa.sa_family = AF_INET then
        match e.ifa_broadaddr with
        | none => none
        | some _ => (loopEntries rest).map (fun out => mkRecord e :: out)
      else loopEntries rest

/-- What `freeifaddrs` was called on: the list validly acquired from
`getifaddrs`, or the uninitialized pointer left when `getifaddrs` failed. -/
inductive FreeTarget where
  | valid
  | indeterminate
deriving DecidableEq

/-- The system state a call observes: the outcome of `getifaddrs`
(`none` = the call failed and the out-parameter was never set), and the
indeterminate contents of the uninitialized local `interfaces` used on the
failure path. -/
structure SysState where
  getifaddrsResult : Option (List Ifaddrs)
  uninitValue : List Ifaddrs
deriving DecidableEq

/-- Everything observable about one call: the pending JavaScript exception
message (if any), the record list built by the loop (`none` when the loop hit
undefined behaviour), and the targets passed to `freeifaddrs`. -/
structure CallOutcome where
  thrownError : Option String
  records : Option (List InterfaceRecord)
  freed : List FreeTarget
deriving DecidableEq

/-- The error message thrown when `getifaddrs` returns non-zero. -/
def errorMessage : String := "Error occurred when searching for network interfaces"

/-- The body of `ListInterfaces`.  On `getifaddrs` success the loop runs over
the acquired list, which is then freed.  On failure the code throws the
pending JavaScript exception and — lacking a `return` — falls through: the
loop runs over the uninitialized pointer's indeterminate contents and
`freeifaddrs` is applied to that never-acquired pointer. -/
def ListInterfaces (sys : SysState) : CallOutcome :=
  match sys.getifaddrsResult with
  | some interfaces =>
    { thrownError := none
      records := loopEntries interfaces
      freed := [FreeTarget.valid] }
  | none =>
    { thrownError := some errorMessage
      records := loopEntries sys.uninitValue
      freed := [FreeTarget.indeterminate] }

/-- Well-formed entry: the unicast pointer is non-null, and when the entry is
IPv4 the broadcast slot is non-null too — the OS contract the code assumes. -/
def WFEntry (e : Ifaddrs) : Prop :=
  e.ifa_addr.isSome ∧ (isIPv4 e = true → e.ifa_broadaddr.isSome)

/-- Well-formed OS report: every entry is well-formed. -/
def WFList (l : List Ifaddrs) : Prop := ∀ e ∈ l, WFEntry e

/-- A successful-query system state: `getifaddrs` returned the list `l`;
`junk` is the (irrelevant) residue modelling the uninitialized local. -/
def okState (l junk : List Ifaddrs) : SysState :=
  { getifaddrsResult := some l, uninitValue := junk }

/-- A failed-query system state: `getifaddrs` returned non-zero and the
local pointer holds the indeterminate contents `junk`. -/
def failState (junk : List Ifaddrs) : SysState :=
  { getifaddrsResult := none, uninitValue := junk }

instance (e : Ifaddrs) : Decidable (WFEntry e) := by
  unfold WFEntry
  infer_instance

instance (l : List Ifaddrs) : Decidable (WFList l) := by
  unfold WFList
  exact List.decidableBAll _ l

/-- A well-formed IPv4 entry: `eth0`, address `192.168.1.10`,
broadcast `192.168.1.255`. -/
def sampleIPv4 : Ifaddrs :=
  { ifa_name := "eth0"
    ifa_addr := some { sa_family := AF_INET, sin_addr := 3232235786 }
    ifa_broadaddr := some { sa_family := AF_INET, sin_addr := 3232236031 }
    ifa_flags := 0 }

/-- A non-IPv4 (IPv6, family 10) entry for the same interface. -/
def sampleIPv6 : Ifaddrs :=
  { ifa_name := "eth0"
    ifa_addr := some { sa_family := 10, sin_addr := 0 }
    ifa_broadaddr := none
    ifa_flags := 0 }

/-- An entry whose `ifa_addr` pointer is NULL. -/
def nullAddrEntry : Ifaddrs :=
  { ifa_name := "tun0"
    ifa_addr := none
    ifa_broadaddr := none
    ifa_flags := 0 }

/-! ### Decimal rendering lemmas -/
theorem toDecAux_foldr (fuel : Nat) : ∀ n : Nat, n ≤ fuel →
    (toDecAux fuel n).foldr (fun d a => a * 10 + d) 0 = n := by
  induction fuel with
  | zero =>
    intro n hn
    have : n = 0 := Nat.le_zero.mp hn
    simp [this, toDecAux]
  | succ fuel ih =>
    intro n hn
    by_cases hz : n = 0
    · simp [hz, toDecAux]
    · have hdiv : n / 10 ≤ fuel := by
        have := Nat.div_lt_self (Nat.pos_of_ne_zero hz) (by norm_num : 1 < 10)
        omega
      simp only [toDecAux, if_neg hz, List.foldr_cons, ih (n / 10) hdiv]
      omega

theorem toDecAux_lt10 (fuel : Nat) : ∀ n d : Nat, d ∈ toDecAux fuel n → d < 10 := by
  induction fuel with
  | zero => intro n d hd; simp [toDecAux] at hd
  | succ fuel ih =>
    intro n d hd
    by_cases hz : n = 0
    · simp [hz, toDecAux] at hd
    · simp only [toDecAux, if_neg hz, List.mem_cons] at hd
      rcases hd with h | h
      · omega
      · exact ih (n / 10) d h

theorem decDigits_lt10 (n : Nat) : ∀ d ∈ decDigits n, d < 10 := by
  intro d hd
  by_cases hz : n = 0
  · simp [hz, decDigits] at hd
    omega
  · simp only [decDigits, if_neg hz, List.mem_reverse] at hd
    exact toDecAux_lt10 n n d hd

theorem decDigits_ne_nil (n : Nat) : decDigits n ≠ [] := by
  by_cases hz : n = 0
  · simp [hz, decDigits]
  · simp only [decDigits, if_neg hz]
    intro hcontra
    have h1 : toDecAux n n = [] := by
      have := congrArg List.reverse hcontra
      simpa using this
    obtain ⟨m, rfl⟩ : ∃ m, n = m + 1 := ⟨n - 1, by omega⟩
    simp [toDecAux] at h1

theorem decDigits_foldl (n : Nat) :
    (decDigits n).foldl (fun a d => a * 10 + d) 0 = n := by
  by_cases hz : n = 0
  · simp [hz, decDigits]
  · simp only [decDigits, if_neg hz]
    rw [List.foldl_reverse]
    exact toDecAux_foldr n n (Nat.le_refl n)

theorem digitChar_facts : ∀ d < 10,
    (digitChar d).toNat = 48 + d ∧ isDigitCh (digitChar d) = true ∧ digitChar d ≠ '.' := by
  decide

theorem foldl_map_digitChar (ds : List Nat) (h : ∀ d ∈ ds, d < 10) : ∀ a : Nat,
    (ds.map digitChar).foldl (fun a c => a * 10 + (c.toNat - 48)) a
      = ds.foldl (fun a d => a * 10 + d) a := by
  induction ds with
  | nil => intro a; rfl
  | cons d ds ih =>
    intro a
    have hd : d < 10 := h d (List.mem_cons_self d ds)
    have htn : (digitChar d).toNat = 48 + d := (digitChar_facts d hd).1
    have hrest : ∀ x ∈ ds, x < 10 := fun x hx => h x (List.mem_cons_of_mem d hx)
    simp only [List.map_cons, List.foldl_cons, htn, ih hrest]
    congr 1
    omega

theorem parseOctet_decChars (o : Nat) (h : o ≤ 255) :
    parseOctet (decChars o) = some o := by
  have hne' : decChars o ≠ [] := by
    intro hc
    exact decDigits_ne_nil o (List.map_eq_nil_iff.mp hc)
  have hne : (decChars o).isEmpty = false := by
    cases hd : decChars o with
    | nil => exact absurd hd hne'
    | cons c cs => simp [hd]
  have hall : (decChars o).all isDigitCh = true := by
    simp only [decChars, List.all_eq_true]
    intro c hc
    obtain ⟨d, hd, rfl⟩ := List.mem_map.mp hc
    exact ((digitChar_facts d (decDigits_lt10 o d hd)).2).1
  have hfold : (decChars o).foldl (fun a c => a * 10 + (c.toNat - 48)) 0 = o := by
    simp only [decChars]
    rw [foldl_map_digitChar (decDigits o) (decDigits_lt10 o) 0]
    exact decDigits_foldl o
  simp only [parseOctet, hne, hall, hfold]
  simp [h]

theorem decChars_no_dot (o : Nat) : ∀ c ∈ decChars o, c ≠ '.' := by
  intro c hc
  obtain ⟨d, hd, rfl⟩ := List.mem_map.mp hc
  exact ((digitChar_facts d (decDigits_lt10 o d hd)).2).2

/-! ### Splitting lemmas -/

theorem splitDots_no_dot (xs : List Char) (h : ∀ c ∈ xs, c ≠ '.') :
    splitDots xs = [xs] := by
  induction xs with
  | nil => rfl
  | cons c cs ih =>
    have hc : c ≠ '.' := h c (List.mem_cons_self c cs)
    have hrest : ∀ x ∈ cs, x ≠ '.' := fun x hx => h x (List.mem_cons_of_mem c hx)
    simp only [splitDots, if_neg hc, ih hrest]

theorem splitDots_append (xs ys : List Char) (h : ∀ c ∈ xs, c ≠ '.') :
    splitDots (xs ++ '.' :: ys) = xs :: splitDots ys := by
  induction xs with
  | nil => simp [splitDots]
  | cons c cs ih =>
    have hc : c ≠ '.' := h c (List.mem_cons_self c cs)
    have hrest : ∀ x ∈ cs, x ≠ '.' := fun x hx => h x (List.mem_cons_of_mem c hx)
    have happ : cs.append ('.' :: ys) = cs ++ '.' :: ys := rfl
    simp only [List.cons_append, splitDots, if_neg hc]
    rw [happ, ih hrest]

/-! ### The round trip -/

theorem inet_pton4_ntop4 (a : Nat) (h : a < 4294967296) :
    inet_pton4 (inet_ntop4 a) = some a := by
  have h0 : a / 16777216 % 256 ≤ 255 := by omega
  have h1 : a / 65536 % 256 ≤ 255 := by omega
  have h2 : a / 256 % 256 ≤ 255 := by omega
  have h3 : a % 256 ≤ 255 := by omega
  have hsplit : splitDots (inet_ntop4 a) =
      [decChars (a / 16777216 % 256), decChars (a / 65536 % 256),
       decChars (a / 256 % 256), decChars (a % 256)] := by
    simp only [inet_ntop4, List.cons_append, List.append_assoc]
    rw [splitDots_append _ _ (decChars_no_dot _), splitDots_append _ _ (decChars_no_dot _),
      splitDots_append _ _ (decChars_no_dot _), splitDots_no_dot _ (decChars_no_dot _)]
  simp only [inet_pton4, hsplit, parseOctet_decChars _ h0, parseOctet_decChars _ h1,
    parseOctet_decChars _ h2, parseOctet_decChars _ h3]
  congr 1
  omega

theorem inet_ptonS_ntopS (a : Nat) (h : a < 4294967296) :
    inet_ptonS (inet_ntopS a) = some a := by
  simpa [inet_ptonS, inet_ntopS] using inet_pton4_ntop4 a h

/-! ### Loop characterization -/

theorem loopEntries_eq_filter (l : List Ifaddrs) (h : WFList l) :
    loopEntries l = some ((l.filter isIPv4).map mkRecord) := by
  induction l with
  | nil => rfl
  | cons e rest ih =>
    have he : WFEntry e := h e (List.mem_cons_self e rest)
    have hrest : WFList rest := fun x hx => h x (List.mem_cons_of_mem e hx)
    obtain ⟨ha, hb⟩ := he
    match hea : e.ifa_addr with
    | none => rw [hea] at ha; simp at ha
    | some sa =>
      by_cases hf : sa.sa_family = AF_INET
      · have hip : isIPv4 e = true := by simp [isIPv4, hea, hf]
        have hbs := hb hip
        match heb : e.ifa_broadaddr with
        | none => rw [heb] at hbs; simp at hbs
        | some ba =>
          simp only [loopEntries, hea, if_pos hf, heb, ih hrest,
            List.filter_cons, hip, if_pos trivial, List.map_cons]
          rfl
      · have hip : isIPv4 e = false := by simp [isIPv4, hea, hf]
        simp only [loopEntries, hea, if_neg hf, ih hrest, List.filter_cons, hip]
        simp

theorem loopEntries_isSome_of_WF (l : List Ifaddrs) (h : WFList l) :
    (loopEntries l).isSome = true := by
  rw [loopEntries_eq_filter l h]
  rfl

theorem loopEntries_none_of_null_addr (l : List Ifaddrs) :
    (∃ e ∈ l, e.ifa_addr = none) → loopEntries l = none := by
  induction l with
  | nil => intro hcontra; simp at hcontra
  | cons e rest ih =>
    intro hex
    match hea : e.ifa_addr with
    | none => simp [loopEntries, hea]
    | some sa =>
      have hrest : ∃ x ∈ rest, x.ifa_addr = none := by
        rcases hex with ⟨x, hx, hxnone⟩
        rcases List.mem_cons.mp hx with rfl | hmem
        · rw [hea] at hxnone; exact absurd hxnone (by simp)
        · exact ⟨x, hmem, hxnone⟩
      by_cases hf : sa.sa_family = AF_INET
      · match heb : e.ifa_broadaddr with
        | none => simp [loopEntries, hea, hf, heb]
        | some ba => simp [loopEntries, hea, hf, heb, ih hrest]
      · simp [loopEntries, hea, hf, ih hrest]


/-! ### Claim theorems -/

/-- C1 (code bug): when `getifaddrs` fails, the error message is thrown, but
enumeration is NOT abandoned: lacking a `return` after
`ThrowAsJavaScriptException`, the function iterates the uninitialized
pointer's indeterminate contents — here concretized as one IPv4 entry — so a
record is produced alongside the failure signal, and the never-acquired
pointer is freed.  The error is therefore not the only outcome. -/
theorem C1_failure_path_not_abandoned :
    ListInterfaces (failState [sampleIPv4]) =
      { thrownError := some errorMessage
        records := some [mkRecord sampleIPv4]
        freed := [FreeTarget.indeterminate] } := rfl

/-- C2 (code bug): on the `getifaddrs`-failure path the code passes the
uninitialized, never-validly-acquired pointer to `freeifaddrs`, violating
"never released when it was never validly acquired". -/
theorem C2_free_of_never_acquired :
    (ListInterfaces (failState [])).freed = [FreeTarget.indeterminate] := rfl

/-- C3: on a successful, well-formed OS report the output is exactly one
record per IPv4 entry — the map of the record constructor over the IPv4
filter of the entry list — so a record appears iff the entry's family is
`AF_INET`, with one record per entry and no deduplication. -/
theorem C3_filter_iff_ipv4 (l junk : List Ifaddrs) (h : WFList l) :
    (ListInterfaces (okState l junk)).records =
      some ((l.filter isIPv4).map mkRecord) :=
  loopEntries_eq_filter l h

theorem C3_witness :
    (ListInterfaces (okState [sampleIPv4, sampleIPv6] [])).records =
      some (([sampleIPv4, sampleIPv6].filter isIPv4).map mkRecord) :=
  C3_filter_iff_ipv4 [sampleIPv4, sampleIPv6] [] (by decide)

/-- C4: every emitted record's `address` and `broadcast` are dotted-decimal
strings that parse back (`inet_pton4`) to exactly the 32-bit unicast and
broadcast-slot values the OS supplied for the originating entry. -/
theorem C4_roundtrip_fields (l junk : List Ifaddrs) (h : WFList l)
    (h32 : ∀ e ∈ l, addrVal e < 4294967296 ∧ broadVal e < 4294967296)
    (out : List InterfaceRecord)
    (hout : (ListInterfaces (okState l junk)).records = some out) :
    ∀ r ∈ out, ∃ e ∈ l, isIPv4 e = true ∧
      inet_ptonS r.address = some (addrVal e) ∧
      inet_ptonS r.broadcast = some (broadVal e) := by
  have hrec : (ListInterfaces (okState l junk)).records = loopEntries l := rfl
  rw [hrec, loopEntries_eq_filter l h] at hout
  have hout2 := Option.some.inj hout
  subst hout2
  intro r hr
  obtain ⟨e, he, rfl⟩ := List.mem_map.mp hr
  have hel : e ∈ l := (List.mem_filter.mp he).1
  have hip : isIPv4 e = true := (List.mem_filter.mp he).2
  obtain ⟨ha32, hb32⟩ := h32 e hel
  exact ⟨e, hel, hip, inet_ptonS_ntopS _ ha32, inet_ptonS_ntopS _ hb32⟩

theorem C4_witness :
    ∃ e ∈ [sampleIPv4, sampleIPv6], isIPv4 e = true ∧
      inet_ptonS (mkRecord sampleIPv4).address = some (addrVal e) ∧
      inet_ptonS (mkRecord sampleIPv4).broadcast = some (broadVal e) :=
  C4_roundtrip_fields [sampleIPv4, sampleIPv6] [] (by decide) (by decide)
    [mkRecord sampleIPv4] rfl (mkRecord sampleIPv4) (by decide)

/-- C5: the output is the record constructor mapped over a subsequence of
the OS-reported entry list consisting of exactly its IPv4 entries, in their
original relative order. -/
theorem C5_order_preserving (l junk : List Ifaddrs) (h : WFList l) :
    ∃ sub : List Ifaddrs, sub.Sublist l ∧ (∀ e ∈ sub, isIPv4 e = true) ∧
      (∀ e ∈ l, isIPv4 e = true → e ∈ sub) ∧
      (ListInterfaces (okState l junk)).records = some (sub.map mkRecord) := by
  refine ⟨l.filter isIPv4, List.filter_sublist l, ?_, ?_, loopEntries_eq_filter l h⟩
  · intro e he
    exact (List.mem_filter.mp he).2
  · intro e hel hip
    exact List.mem_filter.mpr ⟨hel, hip⟩

theorem C5_witness :
    ∃ sub : List Ifaddrs, sub.Sublist [sampleIPv6, sampleIPv4] ∧
      (∀ e ∈ sub, isIPv4 e = true) ∧
      (∀ e ∈ [sampleIPv6, sampleIPv4], isIPv4 e = true → e ∈ sub) ∧
      (ListInterfaces (okState [sampleIPv6, sampleIPv4] [])).records =
        some (sub.map mkRecord) :=
  C5_order_preserving [sampleIPv6, sampleIPv4] [] (by decide)

/-- C6: a successful query whose report contains no IPv4 entry (including
the empty report) returns success with an empty sequence: no exception, and
an outcome distinct from the failure outcome. -/
theorem C6_empty_success (l junk : List Ifaddrs) (h : WFList l)
    (hno : ∀ e ∈ l, isIPv4 e = false) :
    ListInterfaces (okState l junk) =
      { thrownError := none, records := some [], freed := [FreeTarget.valid] } := by
  have hf : l.filter isIPv4 = [] := by
    rw [List.filter_eq_nil_iff]
    intro a ha
    simp [hno a ha]
  have hchar := loopEntries_eq_filter l h
  rw [hf] at hchar
  simp only [ListInterfaces, okState, hchar, List.map_nil]

theorem C6_witness :
    ListInterfaces (okState [sampleIPv6] [sampleIPv4]) =
      { thrownError := none, records := some [], freed := [FreeTarget.valid] } :=
  C6_empty_success [sampleIPv6] [sampleIPv4] (by decide) (by decide)

/-- C7: every emitted record is exactly the three-field record
`{name, address, broadcast}` built from some IPv4 entry of the report, with
`name` equal to the OS-supplied interface name for that entry. -/
theorem C7_record_shape (l junk : List Ifaddrs) (h : WFList l)
    (out : List InterfaceRecord)
    (hout : (ListInterfaces (okState l junk)).records = some out) :
    ∀ r ∈ out, ∃ e ∈ l, isIPv4 e = true ∧
      r = { name := e.ifa_name
            address := inet_ntopS (addrVal e)
            broadcast := inet_ntopS (broadVal e) } := by
  have hrec : (ListInterfaces (okState l junk)).records = loopEntries l := rfl
  rw [hrec, loopEntries_eq_filter l h] at hout
  have hout2 := Option.some.inj hout
  subst hout2
  intro r hr
  obtain ⟨e, he, rfl⟩ := List.mem_map.mp hr
  exact ⟨e, (List.mem_filter.mp he).1, (List.mem_filter.mp he).2, rfl⟩

theorem C7_witness :
    ∃ e ∈ [sampleIPv4], isIPv4 e = true ∧
      mkRecord sampleIPv4 =
        { name := e.ifa_name
          address := inet_ntopS (addrVal e)
          broadcast := inet_ntopS (broadVal e) } :=
  C7_record_shape [sampleIPv4] [sampleIPv6] (by decide) [mkRecord sampleIPv4] rfl
    (mkRecord sampleIPv4) (by decide)

/-- C8: the call is deterministic in the OS report: any two invocations
whose `getifaddrs` queries return the same entry list produce identical
outcomes — no hidden state (in particular, not the residue of the
uninitialized local) influences the result. -/
theorem C8_deterministic (s1 s2 : SysState) (l : List Ifaddrs)
    (h1 : s1.getifaddrsResult = some l) (h2 : s2.getifaddrsResult = some l) :
    ListInterfaces s1 = ListInterfaces s2 := by
  unfold ListInterfaces
  rw [h1, h2]

theorem C8_witness :
    ListInterfaces (okState [sampleIPv4] []) =
      ListInterfaces (okState [sampleIPv4] [sampleIPv6, nullAddrEntry]) :=
  C8_deterministic (okState [sampleIPv4] [])
    (okState [sampleIPv4] [sampleIPv6, nullAddrEntry]) [sampleIPv4] rfl rfl

/-- C9: the family test dereferences `ifa_addr` with no null check: a report
containing an entry with a NULL `ifa_addr` drives the loop into undefined
behaviour (modelled as `none`), and conversely a defined enumeration forces
every entry's unicast pointer to be non-null — the family inspection is
total only under that precondition. -/
theorem C9_null_unicast_ub (l : List Ifaddrs) :
    ((∃ e ∈ l, e.ifa_addr = none) → loopEntries l = none) ∧
    ((loopEntries l).isSome = true → ∀ e ∈ l, e.ifa_addr.isSome = true) := by
  constructor
  · exact loopEntries_none_of_null_addr l
  · intro hs e hel
    cases hx : e.ifa_addr with
    | some sa => rfl
    | none =>
      have hnone := loopEntries_none_of_null_addr l ⟨e, hel, hx⟩
      rw [hnone] at hs
      simp at hs

theorem C9_witness :
    loopEntries [sampleIPv4, nullAddrEntry] = none ∧
      sampleIPv4.ifa_addr.isSome = true :=
  ⟨(C9_null_unicast_ub [sampleIPv4, nullAddrEntry]).1
      ⟨nullAddrEntry, by decide, rfl⟩,
   (C9_null_unicast_ub [sampleIPv4]).2 (by decide) sampleIPv4 (by decide)⟩

/-- C10: no interface-flag filtering: the loop's result is invariant under
arbitrary rewrites of every entry's `ifa_flags` word (down, loopback and
point-to-point interfaces are treated alike), and each record's `broadcast`
field is unconditionally the text rendering of the entry's
broadcast-address slot, whatever that slot holds. -/
theorem C10_flags_ignored (l : List Ifaddrs) (f : Ifaddrs → Nat) :
    loopEntries (l.map (fun e => { e with ifa_flags := f e })) = loopEntries l ∧
    ∀ e : Ifaddrs, (mkRecord e).broadcast = inet_ntopS (broadVal e) := by
  constructor
  · induction l with
    | nil => rfl
    | cons e rest ih =>
      simp only [List.map_cons]
      cases hx : e.ifa_addr with
      | none => simp [loopEntries, hx]
      | some sa =>
        by_cases hf : sa.sa_family = AF_INET
        · cases hb : e.ifa_broadaddr with
          | none => simp [loopEntries, hx, hf, hb]
          | some ba => simp [loopEntries, hx, hf, hb, ih, mkRecord, addrVal, broadVal]
        · simp [loopEntries, hx, hf, ih]
  · intro e
    rfl
